import Mathlib

/-!
# Ring-buffer FIFO (`lib/util/fifobuf.c`)

A shallow embedding of the BeRTOS ring buffer shipped in
`host/gr-kcsa-ks1q/lib/util/fifobuf.c`, followed by the properties of its
`init` / `push` / `pop` / `flush` / `isempty` / `isfull` / `room` operations.

Modelling conventions.

* A pointer into the storage region is an `Int`, counted in elements
  (`unsigned char *`, so one element is one byte).  Pointer arithmetic is plain
  integer arithmetic; in particular `head - 1` is defined even when
  `head == begin`.
* Memory is a total map from addresses to bytes; `*(p) = c` is
  `Function.update`.
* `UNLIKELY(e)` is a branch-prediction hint and stands for `e`.
* `uint32_t size` is a `Nat`; theorems that depend on its range carry the
  hypothesis `size < 2 ^ 32`.  The `uint32_t` result of `fifo_room` is the
  pointer difference reduced modulo `2 ^ 32`.
-/

namespace Fifobuf

/-- An `unsigned char`. -/
abbrev UChar := Fin 256

/-- The flat memory the cursors point into. -/
abbrev Mem := Int → UChar

/-- Modelled from the spec: the declaration of `struct FIFOBuffer` sits in
`fifobuf.h`, which is not among the sources; its four cursors `head`, `tail`,
`begin`, `end` are those of the data model and of the field accesses in
`fifobuf.c`, each a pointer into the storage. -/
structure FIFOBuffer where
  head : Int
  tail : Int
  begin : Int
  end_ : Int
deriving DecidableEq, Repr

/-- A descriptor together with the memory it points into. -/
structure FifoState where
  fb : FIFOBuffer
  mem : Mem

/-- Conversion of a pointer difference to `uint32_t`. -/
def toU32 (x : Int) : Nat := (x % 2 ^ 32).toNat

/-- Source `fifo_isempty`: `return fb->head == fb->tail;` -/
def fifo_isempty (fb : FIFOBuffer) : Bool :=
  decide (fb.head = fb.tail)

/-- Source `fifo_isfull`:
`return ((fb->head == fb->begin) && (fb->tail == fb->end)) || (fb->tail == fb->head - 1);` -/
def fifo_isfull (fb : FIFOBuffer) : Bool :=
  (decide (fb.head = fb.begin) && decide (fb.tail = fb.end_))
    || decide (fb.tail = fb.head - 1)

/-- Source `fifo_room`: the two-branch free-slot count, returned as `uint32_t`. -/
def fifo_room (fb : FIFOBuffer) : Nat :=
  if fb.tail < fb.head then
    toU32 (fb.head - fb.tail - 1)
  else
    toU32 (fb.head - fb.tail + fb.end_ - fb.begin)

/-- Source `fifo_push`: write at `tail`, then wrap `tail` to `begin` when it was at
`end`, else advance it by one. -/
def fifo_push (s : FifoState) (c : UChar) : FifoState :=
  let mem := Function.update s.mem s.fb.tail c
  if s.fb.tail = s.fb.end_ then
    { fb := { s.fb with tail := s.fb.begin }, mem := mem }
  else
    { fb := { s.fb with tail := s.fb.tail + 1 }, mem := mem }

/-- Source `fifo_pop`: when `head == end`, wrap `head` to `begin` and return `*end`;
otherwise return `*(head++)`. -/
def fifo_pop (s : FifoState) : UChar × FifoState :=
  if s.fb.head = s.fb.end_ then
    (s.mem s.fb.end_, { s with fb := { s.fb with head := s.fb.begin } })
  else
    (s.mem s.fb.head, { s with fb := { s.fb with head := s.fb.head + 1 } })

/-- Source `fifo_flush`: `fb->head = fb->tail;` -/
def fifo_flush (s : FifoState) : FifoState :=
  { s with fb := { s.fb with head := s.fb.tail } }

/-- Source `fifo_init`: `fb->head = fb->tail = fb->begin = buf; fb->end = buf + size - 1;` -/
def fifo_init (s : FifoState) (buf : Int) (size : Nat) : FifoState :=
  { s with fb := { head := buf, tail := buf, begin := buf, end_ := buf + (size : Int) - 1 } }

/-! ### Vocabulary for the statements -/

/-- Both cursors lie inside the storage region `[begin, end]`. -/
def InBounds (fb : FIFOBuffer) : Prop :=
  fb.begin ≤ fb.head ∧ fb.head ≤ fb.end_ ∧ fb.begin ≤ fb.tail ∧ fb.tail ≤ fb.end_

instance (fb : FIFOBuffer) : Decidable (InBounds fb) := by
  unfold InBounds; infer_instance

/-- The descriptor spans exactly `size` slots: `end = begin + size - 1`. -/
def HasSize (fb : FIFOBuffer) (size : Nat) : Prop :=
  fb.end_ = fb.begin + (size : Int) - 1

instance (fb : FIFOBuffer) (size : Nat) : Decidable (HasSize fb size) := by
  unfold HasSize; infer_instance

/-- One call of the producer or the consumer. -/
inductive Op where
  | push (c : UChar)
  | pop
deriving DecidableEq, Repr

/-- Run a sequence of calls, collecting the values returned by the pops. -/
def runOps : List Op → FifoState → FifoState × List UChar
  | [], s => (s, [])
  | Op.push c :: ops, s => runOps ops (fifo_push s c)
  | Op.pop :: ops, s =>
      let r := fifo_pop s
      let t := runOps ops r.2
      (t.1, r.1 :: t.2)

/-- The caller's contract: no push while `fifo_isfull`, no pop while
`fifo_isempty`, checked at each call in turn. -/
def inContract : List Op → FifoState → Bool
  | [], _ => true
  | Op.push c :: ops, s => !fifo_isfull s.fb && inContract ops (fifo_push s c)
  | Op.pop :: ops, s => !fifo_isempty s.fb && inContract ops (fifo_pop s).2

/-- The values handed to the pushes of a call sequence, in order. -/
def pushed : List Op → List UChar
  | [] => []
  | Op.push c :: ops => c :: pushed ops
  | Op.pop :: ops => pushed ops

/-- Number of pops in a call sequence. -/
def numPops : List Op → Nat
  | [] => 0
  | Op.push _ :: ops => numPops ops
  | Op.pop :: ops => numPops ops + 1

/-- Number of pushes in a call sequence. -/
def numPushes : List Op → Nat
  | [] => 0
  | Op.push _ :: ops => numPushes ops + 1
  | Op.pop :: ops => numPushes ops

/-- One circular step of a cursor: the update both `fifo_push` (on `tail`) and
`fifo_pop` (on `head`) perform. -/
def advance (fb : FIFOBuffer) (p : Int) : Int :=
  if p = fb.end_ then fb.begin else p + 1

/-- Number of elements between `head` and `tail` in circular order. -/
def held (fb : FIFOBuffer) : Nat :=
  if fb.tail < fb.head then (fb.tail - fb.head + (fb.end_ - fb.begin + 1)).toNat
  else (fb.tail - fb.head).toNat

/-- Read `n` consecutive slots starting at `p`, wrapping at `end`. -/
def readFrom (fb : FIFOBuffer) (mem : Mem) : Nat → Int → List UChar
  | 0, _ => []
  | n + 1, p => mem p :: readFrom fb mem n (advance fb p)

/-- The abstract queue a state represents: the slots from `head` up to, but not
including, `tail`, read in circular order. -/
def queue (s : FifoState) : List UChar :=
  readFrom s.fb s.mem (held s.fb) s.fb.head

/-- Memory used by the concrete scenarios: every byte is zero. -/
def zeroMem : Mem := fun _ => 0

/-- An uninitialised descriptor over zeroed memory. -/
def blank : FifoState := { fb := { head := 0, tail := 0, begin := 0, end_ := 0 }, mem := zeroMem }

/-- Push the given values one after the other, unconditionally. -/
def pushAll : List UChar → FifoState → FifoState
  | [], s => s
  | c :: cs, s => pushAll cs (fifo_push s c)

/-- Pop `n` times in a row, unconditionally, keeping only the final state. -/
def popN : Nat → FifoState → FifoState
  | 0, s => s
  | n + 1, s => popN n (fifo_pop s).2

/-- One call of any of the three state-changing operations. -/
inductive Call where
  | push (c : UChar)
  | pop
  | flush
deriving DecidableEq, Repr

/-- Run a sequence of arbitrary calls, with no contract imposed. -/
def runCalls : List Call → FifoState → FifoState
  | [], s => s
  | Call.push c :: cs, s => runCalls cs (fifo_push s c)
  | Call.pop :: cs, s => runCalls cs (fifo_pop s).2
  | Call.flush :: cs, s => runCalls cs (fifo_flush s)

/-- Source `fifo_len`: `return fb->end - fb->begin;`, returned as `uint32_t`. -/
def fifo_len (fb : FIFOBuffer) : Nat :=
  toU32 (fb.end_ - fb.begin)

/-- The data model's `capacity_in_slots`, in the words of the specification:
`storage_end - storage_begin + 1`. -/
def spec_capacity_in_slots (fb : FIFOBuffer) : Int :=
  fb.end_ - fb.begin + 1

/-- The index-based cursor step in the words of the specification: an explicit
modular increment of the offset from `begin`, for a buffer of `size` slots. -/
def spec_modular_step (begin : Int) (size : Nat) (p : Int) : Int :=
  begin + (p - begin + 1) % (size : Int)

/-! ### The 16-bit variant -/

/-- An `int16_t`, as its 16-bit pattern. -/
abbrev Q15 := Fin 65536

/-- Memory seen through an `int16_t *`; addresses count 16-bit elements. -/
abbrev Mem_q15 := Int → Q15

/-- Modelled from the spec: the declaration of `struct FIFOBuffer_q15` sits in
`fifobuf.h`, which is not among the sources; it has the same four cursors, each
an `int16_t` pointer. -/
structure FIFOBuffer_q15 where
  head : Int
  tail : Int
  begin : Int
  end_ : Int
deriving DecidableEq, Repr

/-- A 16-bit descriptor together with the memory it points into. -/
structure FifoState_q15 where
  fb : FIFOBuffer_q15
  mem : Mem_q15

/-- Source `fifo_isempty_q15`: `return fb->head == fb->tail;` -/
def fifo_isempty_q15 (fb : FIFOBuffer_q15) : Bool :=
  decide (fb.head = fb.tail)

/-- Source `fifo_isfull_q15`:
`return ((fb->head == fb->begin) && (fb->tail == fb->end)) || (fb->tail == fb->head - 1);` -/
def fifo_isfull_q15 (fb : FIFOBuffer_q15) : Bool :=
  (decide (fb.head = fb.begin) && decide (fb.tail = fb.end_))
    || decide (fb.tail = fb.head - 1)

/-- Source `fifo_push_q15`: write at `tail`, then wrap `tail` to `begin` when it was
at `end`, else advance it by one element. -/
def fifo_push_q15 (s : FifoState_q15) (c : Q15) : FifoState_q15 :=
  let mem := Function.update s.mem s.fb.tail c
  if s.fb.tail = s.fb.end_ then
    { fb := { s.fb with tail := s.fb.begin }, mem := mem }
  else
    { fb := { s.fb with tail := s.fb.tail + 1 }, mem := mem }

/-- Source `fifo_pop_q15`: when `head == end`, wrap `head` to `begin` and return
`*end`; otherwise return `*(head++)`. -/
def fifo_pop_q15 (s : FifoState_q15) : Q15 × FifoState_q15 :=
  if s.fb.head = s.fb.end_ then
    (s.mem s.fb.end_, { s with fb := { s.fb with head := s.fb.begin } })
  else
    (s.mem s.fb.head, { s with fb := { s.fb with head := s.fb.head + 1 } })

/-- Source `fifo_init_q15`:
`fb->head = fb->tail = fb->begin = buf; fb->end = buf + size - 1;` -/
def fifo_init_q15 (s : FifoState_q15) (buf : Int) (size : Nat) : FifoState_q15 :=
  { s with fb := { head := buf, tail := buf, begin := buf, end_ := buf + (size : Int) - 1 } }

/-- One call of the 16-bit producer or consumer. -/
inductive Op_q15 where
  | push (c : Q15)
  | pop
deriving DecidableEq, Repr

/-- What a caller can see of the cursors: the offsets `head - begin`,
`tail - begin`, `end - begin` in elements, and the two boolean results. -/
structure Observation where
  headOff : Int
  tailOff : Int
  endOff : Int
  isempty : Bool
  isfull : Bool
deriving DecidableEq, Repr

/-- Observation of an 8-bit descriptor. -/
def observe (fb : FIFOBuffer) : Observation :=
  { headOff := fb.head - fb.begin, tailOff := fb.tail - fb.begin,
    endOff := fb.end_ - fb.begin, isempty := fifo_isempty fb, isfull := fifo_isfull fb }

/-- Observation of a 16-bit descriptor. -/
def observe_q15 (fb : FIFOBuffer_q15) : Observation :=
  { headOff := fb.head - fb.begin, tailOff := fb.tail - fb.begin,
    endOff := fb.end_ - fb.begin, isempty := fifo_isempty_q15 fb,
    isfull := fifo_isfull_q15 fb }

/-- The observations before the first call and after every call of a run of
the 8-bit operations. -/
def trace : List Op → FifoState → List Observation
  | [], s => [observe s.fb]
  | Op.push c :: ops, s => observe s.fb :: trace ops (fifo_push s c)
  | Op.pop :: ops, s => observe s.fb :: trace ops (fifo_pop s).2

/-- The observations before the first call and after every call of a run of
the 16-bit operations. -/
def trace_q15 : List Op_q15 → FifoState_q15 → List Observation
  | [], s => [observe_q15 s.fb]
  | Op_q15.push c :: ops, s => observe_q15 s.fb :: trace_q15 ops (fifo_push_q15 s c)
  | Op_q15.pop :: ops, s => observe_q15 s.fb :: trace_q15 ops (fifo_pop_q15 s).2

/-- Two call sequences are the same up to the values pushed. -/
def sameCalls : List Op → List Op_q15 → Bool
  | [], [] => true
  | Op.push _ :: a, Op_q15.push _ :: b => sameCalls a b
  | Op.pop :: a, Op_q15.pop :: b => sameCalls a b
  | _, _ => false

/-- The cursors of an 8-bit and a 16-bit descriptor sit at the same offsets. -/
def SameOffsets (fb : FIFOBuffer) (fq : FIFOBuffer_q15) : Prop :=
  fb.head - fb.begin = fq.head - fq.begin ∧
  fb.tail - fb.begin = fq.tail - fq.begin ∧
  fb.end_ - fb.begin = fq.end_ - fq.begin

/-- Memory for the 16-bit scenarios: every element is zero. -/
def zeroMem_q15 : Mem_q15 := fun _ => 0

/-- An uninitialised 16-bit descriptor over zeroed memory. -/
def blank_q15 : FifoState_q15 :=
  { fb := { head := 0, tail := 0, begin := 0, end_ := 0 }, mem := zeroMem_q15 }

/-- Run a sequence of 16-bit calls, collecting the values returned by the pops. -/
def runOps_q15 : List Op_q15 → FifoState_q15 → FifoState_q15 × List Q15
  | [], s => (s, [])
  | Op_q15.push c :: ops, s => runOps_q15 ops (fifo_push_q15 s c)
  | Op_q15.pop :: ops, s =>
      let r := fifo_pop_q15 s
      let t := runOps_q15 ops r.2
      (t.1, r.1 :: t.2)

/-- Two call sequences make the same calls in the same order, and wherever
the 8-bit one pushes `c` the 16-bit one pushes some `d` related to it by `R`. -/
def RelCalls (R : UChar → Q15 → Prop) : List Op → List Op_q15 → Prop
  | [], [] => True
  | Op.push c :: a, Op_q15.push d :: b => R c d ∧ RelCalls R a b
  | Op.pop :: a, Op_q15.pop :: b => RelCalls R a b
  | _, _ => False

/-- The two storages of `size` slots hold `R`-related elements slot by slot:
slot `i` of the 8-bit buffer against slot `i` of the 16-bit buffer. -/
def StorageRel (R : UChar → Q15 → Prop) (size : Nat) (s : FifoState) (q : FifoState_q15) :
    Prop :=
  ∀ i : Int, 0 ≤ i → i < (size : Int) →
    R (s.mem (s.fb.begin + i)) (q.mem (q.fb.begin + i))

/-- The simulation relation between an 8-bit and a 16-bit buffer of `size`
slots: equal cursor offsets, cursors in bounds, related storage contents. -/
def Simulates (R : UChar → Q15 → Prop) (size : Nat) (s : FifoState) (q : FifoState_q15) :
    Prop :=
  SameOffsets s.fb q.fb ∧ InBounds s.fb ∧ HasSize s.fb size ∧ StorageRel R size s q

/-- A sample relation between bytes and 16-bit elements: the 16-bit element is
the byte scaled by 256. -/
def scaled (c : UChar) (d : Q15) : Prop :=
  d.val = 256 * c.val

/-! ### Field-level description of each operation -/

theorem push_head (s : FifoState) (c : UChar) : (fifo_push s c).fb.head = s.fb.head := by
  unfold fifo_push; split <;> rfl

theorem push_begin (s : FifoState) (c : UChar) : (fifo_push s c).fb.begin = s.fb.begin := by
  unfold fifo_push; split <;> rfl

theorem push_end (s : FifoState) (c : UChar) : (fifo_push s c).fb.end_ = s.fb.end_ := by
  unfold fifo_push; split <;> rfl

theorem push_tail (s : FifoState) (c : UChar) :
    (fifo_push s c).fb.tail = advance s.fb s.fb.tail := by
  unfold fifo_push advance; split <;> rfl

theorem push_mem (s : FifoState) (c : UChar) :
    (fifo_push s c).mem = Function.update s.mem s.fb.tail c := by
  unfold fifo_push; split <;> rfl

theorem pop_tail (s : FifoState) : (fifo_pop s).2.fb.tail = s.fb.tail := by
  unfold fifo_pop; split <;> rfl

theorem pop_begin (s : FifoState) : (fifo_pop s).2.fb.begin = s.fb.begin := by
  unfold fifo_pop; split <;> rfl

theorem pop_end (s : FifoState) : (fifo_pop s).2.fb.end_ = s.fb.end_ := by
  unfold fifo_pop; split <;> rfl

theorem pop_head (s : FifoState) : (fifo_pop s).2.fb.head = advance s.fb s.fb.head := by
  unfold fifo_pop advance; split <;> rfl

theorem pop_mem (s : FifoState) : (fifo_pop s).2.mem = s.mem := by
  unfold fifo_pop; split <;> rfl

theorem pop_value (s : FifoState) : (fifo_pop s).1 = s.mem s.fb.head := by
  unfold fifo_pop; split
  · next h => rw [h]
  · rfl

theorem push_inBounds (s : FifoState) (c : UChar) (hb : InBounds s.fb) :
    InBounds (fifo_push s c).fb := by
  unfold InBounds at *
  rw [push_head, push_begin, push_end, push_tail]
  unfold advance
  split <;> omega

theorem pop_inBounds (s : FifoState) (hb : InBounds s.fb) : InBounds (fifo_pop s).2.fb := by
  unfold InBounds at *
  rw [pop_head, pop_begin, pop_end, pop_tail]
  unfold advance
  split <;> omega

theorem push_hasSize (s : FifoState) (c : UChar) (size : Nat) (hs : HasSize s.fb size) :
    HasSize (fifo_push s c).fb size := by
  unfold HasSize at *
  rw [push_begin, push_end]; exact hs

theorem pop_hasSize (s : FifoState) (size : Nat) (hs : HasSize s.fb size) :
    HasSize (fifo_pop s).2.fb size := by
  unfold HasSize at *
  rw [pop_begin, pop_end]; exact hs

/-! ### Room, emptiness and fullness in terms of the cursors -/

theorem toU32_of_range (x : Int) (h0 : 0 ≤ x) (h1 : x < 2 ^ 32) : (toU32 x : Int) = x := by
  unfold toU32
  rw [Int.toNat_of_nonneg (Int.emod_nonneg _ (by norm_num)), Int.emod_eq_of_lt h0 h1]

theorem room_eq (fb : FIFOBuffer) (size : Nat) (h32 : size < 2 ^ 32)
    (hb : InBounds fb) (hs : HasSize fb size) :
    (fifo_room fb : Int) =
      if fb.tail < fb.head then fb.head - fb.tail - 1
      else fb.head - fb.tail + (size : Int) - 1 := by
  unfold InBounds HasSize at *
  have h32i : (size : Int) < 2 ^ 32 := by exact_mod_cast h32
  unfold fifo_room
  split
  · rw [toU32_of_range _ (by omega) (by omega)]
  · rw [toU32_of_range _ (by omega) (by omega)]; omega

theorem isfull_iff (fb : FIFOBuffer) :
    fifo_isfull fb = true ↔
      (fb.head = fb.begin ∧ fb.tail = fb.end_) ∨ fb.tail = fb.head - 1 := by
  simp [fifo_isfull]

theorem isempty_iff (fb : FIFOBuffer) : fifo_isempty fb = true ↔ fb.head = fb.tail := by
  simp [fifo_isempty]

theorem room_push (s : FifoState) (c : UChar) (size : Nat) (h32 : size < 2 ^ 32)
    (hb : InBounds s.fb) (hs : HasSize s.fb size) (hf : fifo_isfull s.fb = false) :
    (fifo_room (fifo_push s c).fb : Int) = (fifo_room s.fb : Int) - 1 := by
  have hf2 : ¬ ((s.fb.head = s.fb.begin ∧ s.fb.tail = s.fb.end_) ∨ s.fb.tail = s.fb.head - 1) := by
    rw [← isfull_iff, hf]; simp
  rw [room_eq _ size h32 (push_inBounds s c hb) (push_hasSize s c size hs),
    room_eq _ size h32 hb hs, push_head, push_tail]
  unfold InBounds HasSize advance at *
  split_ifs <;> omega

theorem room_pop (s : FifoState) (size : Nat) (h32 : size < 2 ^ 32)
    (hb : InBounds s.fb) (hs : HasSize s.fb size) (he : fifo_isempty s.fb = false) :
    (fifo_room (fifo_pop s).2.fb : Int) = (fifo_room s.fb : Int) + 1 := by
  have he2 : ¬ (s.fb.head = s.fb.tail) := by
    rw [← isempty_iff, he]; simp
  rw [room_eq _ size h32 (pop_inBounds s hb) (pop_hasSize s size hs),
    room_eq _ size h32 hb hs, pop_head, pop_tail]
  unfold InBounds HasSize advance at *
  split_ifs <;> omega

theorem room_range (fb : FIFOBuffer) (size : Nat) (h32 : size < 2 ^ 32)
    (hb : InBounds fb) (hs : HasSize fb size) :
    (fifo_room fb : Int) ≤ (size : Int) - 1 := by
  rw [room_eq fb size h32 hb hs]
  unfold InBounds HasSize at *
  split_ifs <;> omega

theorem room_zero_iff (fb : FIFOBuffer) (size : Nat) (h32 : size < 2 ^ 32)
    (hb : InBounds fb) (hs : HasSize fb size) :
    fifo_room fb = 0 ↔ fifo_isfull fb = true := by
  have hr := room_eq fb size h32 hb hs
  rw [isfull_iff]
  unfold InBounds HasSize at *
  split_ifs at hr <;> omega

theorem room_max_iff (fb : FIFOBuffer) (size : Nat) (h2 : 2 ≤ size) (h32 : size < 2 ^ 32)
    (hb : InBounds fb) (hs : HasSize fb size) :
    fifo_room fb = size - 1 ↔ fifo_isempty fb = true := by
  have hr := room_eq fb size h32 hb hs
  rw [isempty_iff]
  unfold InBounds HasSize at *
  split_ifs at hr <;> omega

theorem flush_inBounds (s : FifoState) (hb : InBounds s.fb) : InBounds (fifo_flush s).fb := by
  unfold InBounds fifo_flush at *
  simp only
  omega

theorem init_inBounds (s : FifoState) (buf : Int) (size : Nat) (h1 : 1 ≤ size) :
    InBounds (fifo_init s buf size).fb := by
  unfold InBounds fifo_init
  simp only
  omega

theorem init_hasSize (s : FifoState) (buf : Int) (size : Nat) :
    HasSize (fifo_init s buf size).fb size := rfl

theorem init_room (s : FifoState) (buf : Int) (size : Nat)
    (h2 : 2 ≤ size) (h32 : size < 2 ^ 32) :
    (fifo_room (fifo_init s buf size).fb : Int) = (size : Int) - 1 := by
  rw [room_eq _ size h32 (init_inBounds s buf size (by omega)) (init_hasSize s buf size)]
  simp [fifo_init]

/-- Along an in-contract run every push costs one unit of room and every pop
returns one; bounds and size are kept. -/
theorem run_room (size : Nat) (h32 : size < 2 ^ 32) (ops : List Op) :
    ∀ s : FifoState, InBounds s.fb → HasSize s.fb size → inContract ops s = true →
      InBounds (runOps ops s).1.fb ∧ HasSize (runOps ops s).1.fb size ∧
      (fifo_room (runOps ops s).1.fb : Int) =
        (fifo_room s.fb : Int) - (numPushes ops : Int) + (numPops ops : Int) := by
  induction ops with
  | nil => intro s hb hs _; simp [runOps, numPushes, numPops, hb, hs]
  | cons op ops ih =>
    intro s hb hs hc
    cases op with
    | push c =>
      simp only [inContract, Bool.and_eq_true, Bool.not_eq_true'] at hc
      obtain ⟨h1, h2, h3⟩ := ih (fifo_push s c) (push_inBounds s c hb)
        (push_hasSize s c size hs) hc.2
      refine ⟨h1, h2, ?_⟩
      simp only [runOps, numPushes, numPops]
      rw [h3, room_push s c size h32 hb hs hc.1]
      push_cast; ring
    | pop =>
      simp only [inContract, Bool.and_eq_true, Bool.not_eq_true'] at hc
      obtain ⟨h1, h2, h3⟩ := ih (fifo_pop s).2 (pop_inBounds s hb)
        (pop_hasSize s size hs) hc.2
      refine ⟨h1, h2, ?_⟩
      simp only [runOps, numPushes, numPops]
      rw [h3, room_pop s size h32 hb hs hc.1]
      push_cast; ring

theorem runCalls_inv (calls : List Call) :
    ∀ s : FifoState, InBounds s.fb →
      InBounds (runCalls calls s).fb ∧ (runCalls calls s).fb.begin = s.fb.begin ∧
      (runCalls calls s).fb.end_ = s.fb.end_ := by
  induction calls with
  | nil => intro s hb; exact ⟨hb, rfl, rfl⟩
  | cons c cs ih =>
    intro s hb
    cases c with
    | push v =>
      obtain ⟨h1, h2, h3⟩ := ih (fifo_push s v) (push_inBounds s v hb)
      exact ⟨h1, by rw [← push_begin s v]; exact h2, by rw [← push_end s v]; exact h3⟩
    | pop =>
      obtain ⟨h1, h2, h3⟩ := ih (fifo_pop s).2 (pop_inBounds s hb)
      exact ⟨h1, by rw [← pop_begin s]; exact h2, by rw [← pop_end s]; exact h3⟩
    | flush =>
      obtain ⟨h1, h2, h3⟩ := ih (fifo_flush s) (flush_inBounds s hb)
      exact ⟨h1, h2, h3⟩

/-! ### The buffer as an abstract queue -/

theorem readFrom_congr (fb fb2 : FIFOBuffer) (mem : Mem) (hbeg : fb2.begin = fb.begin)
    (hend : fb2.end_ = fb.end_) (n : Nat) :
    ∀ p, readFrom fb2 mem n p = readFrom fb mem n p := by
  induction n with
  | zero => intro p; rfl
  | succ n ih =>
    intro p
    simp only [readFrom, advance, hbeg, hend]
    rw [← ih]

/-- Writing at `t` and reading one slot further appends the written value,
provided the read starts `n` circular steps before `t`. -/
theorem readFrom_update (fb : FIFOBuffer) (mem : Mem) (t : Int) (c : UChar)
    (ht : fb.begin ≤ t ∧ t ≤ fb.end_) (n : Nat) :
    ∀ p, fb.begin ≤ p → p ≤ fb.end_ →
      (if t < p then t - p + (fb.end_ - fb.begin + 1) else t - p) = (n : Int) →
      readFrom fb (Function.update mem t c) (n + 1) p = readFrom fb mem n p ++ [c] := by
  induction n with
  | zero =>
    intro p hp1 hp2 hd
    have hpt : p = t := by split_ifs at hd <;> omega
    subst hpt
    simp [readFrom]
  | succ n ih =>
    intro p hp1 hp2 hd
    have hpt : p ≠ t := by split_ifs at hd <;> omega
    have hstep : readFrom fb (Function.update mem t c) (n + 1) (advance fb p) =
        readFrom fb mem n (advance fb p) ++ [c] := by
      apply ih
      · unfold advance; split_ifs <;> omega
      · unfold advance; split_ifs <;> omega
      · unfold advance; split_ifs at hd ⊢ <;> omega
    rw [readFrom, hstep, Function.update_noteq hpt]
    rfl

theorem queue_push (s : FifoState) (c : UChar) (hb : InBounds s.fb)
    (hf : fifo_isfull s.fb = false) : queue (fifo_push s c) = queue s ++ [c] := by
  have hf2 : ¬ ((s.fb.head = s.fb.begin ∧ s.fb.tail = s.fb.end_) ∨ s.fb.tail = s.fb.head - 1) := by
    rw [← isfull_iff, hf]; simp
  have hheld : held (fifo_push s c).fb = held s.fb + 1 := by
    unfold held
    rw [push_head, push_tail, push_begin, push_end]
    unfold InBounds advance at *
    split_ifs <;> omega
  unfold queue
  rw [hheld, push_head, push_mem, readFrom_congr s.fb _ _ (push_begin s c) (push_end s c)]
  apply readFrom_update
  · unfold InBounds at hb; omega
  · exact hb.1
  · exact hb.2.1
  · unfold held
    unfold InBounds at hb
    split_ifs <;> omega

theorem queue_pop (s : FifoState) (hb : InBounds s.fb) (he : fifo_isempty s.fb = false) :
    queue s = (fifo_pop s).1 :: queue (fifo_pop s).2 := by
  have he2 : ¬ (s.fb.head = s.fb.tail) := by
    rw [← isempty_iff, he]; simp
  have hheld : held s.fb = held (fifo_pop s).2.fb + 1 := by
    unfold held
    rw [pop_head, pop_tail, pop_begin, pop_end]
    unfold InBounds advance at *
    split_ifs <;> omega
  unfold queue
  rw [hheld, pop_head, pop_mem, pop_value,
    readFrom_congr s.fb _ _ (pop_begin s) (pop_end s)]
  rfl

theorem queue_init (s : FifoState) (buf : Int) (size : Nat) :
    queue (fifo_init s buf size) = [] := by
  simp [queue, held, fifo_init, readFrom]

theorem run_length (ops : List Op) : ∀ s, (runOps ops s).2.length = numPops ops := by
  induction ops with
  | nil => intro s; rfl
  | cons op ops ih =>
    intro s
    cases op with
    | push c => simp only [runOps, numPops]; exact ih _
    | pop => simp only [runOps, numPops, List.length_cons]; rw [ih]

/-- Refinement: an in-contract run pops the represented queue followed by the
pushed values, in that order. -/
theorem run_queue (ops : List Op) :
    ∀ s : FifoState, InBounds s.fb → inContract ops s = true →
      (runOps ops s).2 = (queue s ++ pushed ops).take (numPops ops) := by
  induction ops with
  | nil => intro s _ _; simp [runOps, numPops]
  | cons op ops ih =>
    intro s hb hc
    cases op with
    | push c =>
      simp only [inContract, Bool.and_eq_true, Bool.not_eq_true'] at hc
      simp only [runOps, numPops, pushed]
      rw [ih (fifo_push s c) (push_inBounds s c hb) hc.2, queue_push s c hb hc.1]
      simp
    | pop =>
      simp only [inContract, Bool.and_eq_true, Bool.not_eq_true'] at hc
      simp only [runOps, numPops, pushed]
      rw [ih (fifo_pop s).2 (pop_inBounds s hb) hc.2, queue_pop s hb hc.1]
      simp

/-! ### Filling and draining -/

theorem pushAll_room (size : Nat) (h32 : size < 2 ^ 32) (vs : List UChar) :
    ∀ s : FifoState, InBounds s.fb → HasSize s.fb size → vs.length ≤ fifo_room s.fb →
      InBounds (pushAll vs s).fb ∧ HasSize (pushAll vs s).fb size ∧
      fifo_room (pushAll vs s).fb + vs.length = fifo_room s.fb := by
  induction vs with
  | nil => intro s hb hs _; exact ⟨hb, hs, rfl⟩
  | cons v vs ih =>
    intro s hb hs hlen
    simp only [List.length_cons] at hlen
    have hnf : fifo_isfull s.fb = false := by
      cases hfull : fifo_isfull s.fb with
      | false => rfl
      | true => have := (room_zero_iff s.fb size h32 hb hs).2 hfull; omega
    have hstep := room_push s v size h32 hb hs hnf
    obtain ⟨h1, h2, h3⟩ := ih (fifo_push s v) (push_inBounds s v hb)
      (push_hasSize s v size hs) (by omega)
    refine ⟨h1, h2, ?_⟩
    simp only [pushAll, List.length_cons]
    omega

theorem popN_room (size : Nat) (h2 : 2 ≤ size) (h32 : size < 2 ^ 32) (n : Nat) :
    ∀ s : FifoState, InBounds s.fb → HasSize s.fb size → fifo_room s.fb + n ≤ size - 1 →
      InBounds (popN n s).fb ∧ HasSize (popN n s).fb size ∧
      fifo_room (popN n s).fb = fifo_room s.fb + n := by
  induction n with
  | zero => intro s hb hs _; exact ⟨hb, hs, rfl⟩
  | succ n ih =>
    intro s hb hs hlen
    have hne : fifo_isempty s.fb = false := by
      cases hemp : fifo_isempty s.fb with
      | false => rfl
      | true => have := (room_max_iff s.fb size h2 h32 hb hs).2 hemp; omega
    have hstep := room_pop s size h32 hb hs hne
    obtain ⟨h1, h2, h3⟩ := ih (fifo_pop s).2 (pop_inBounds s hb)
      (pop_hasSize s size hs) (by omega)
    refine ⟨h1, h2, ?_⟩
    simp only [popN]
    omega

/-! ### Stepping an explicit state -/

theorem push_mk (h t b e : Int) (m : Mem) (c : UChar) :
    fifo_push ⟨⟨h, t, b, e⟩, m⟩ c =
      ⟨⟨h, if t = e then b else t + 1, b, e⟩, Function.update m t c⟩ := by
  unfold fifo_push
  split <;> rfl

theorem pop_mk (h t b e : Int) (m : Mem) :
    fifo_pop ⟨⟨h, t, b, e⟩, m⟩ = (m h, ⟨⟨if h = e then b else h + 1, t, b, e⟩, m⟩) := by
  unfold fifo_pop
  split
  · next hh => simp only at hh; subst hh; rfl
  · rfl

theorem init_mk (s : FifoState) (buf : Int) (size : Nat) :
    fifo_init s buf size = ⟨⟨buf, buf, buf, buf + (size : Int) - 1⟩, s.mem⟩ := rfl

/-! ### Initial state -/

/-- C3: for every `size >= 2` (a `uint32_t`), right after `fifo_init` the
descriptor has `head = tail = begin = buf` and `end = buf + size - 1`,
`fifo_isempty` is true, `fifo_isfull` is false and `fifo_room` is `size - 1`. -/
theorem fifo_init_state (s : FifoState) (buf : Int) (size : Nat)
    (h2 : 2 ≤ size) (h32 : size < 2 ^ 32) :
    (fifo_init s buf size).fb.head = buf ∧
    (fifo_init s buf size).fb.tail = buf ∧
    (fifo_init s buf size).fb.begin = buf ∧
    (fifo_init s buf size).fb.end_ = buf + (size : Int) - 1 ∧
    fifo_isempty (fifo_init s buf size).fb = true ∧
    fifo_isfull (fifo_init s buf size).fb = false ∧
    fifo_room (fifo_init s buf size).fb = size - 1 := by
  refine ⟨rfl, rfl, rfl, rfl, ?_, ?_, ?_⟩
  · simp [fifo_init, fifo_isempty]
  · simp only [fifo_init, fifo_isfull, Bool.or_eq_false_iff, Bool.and_eq_false_iff,
      decide_eq_false_iff_not]
    constructor
    · right; omega
    · omega
  · simp only [fifo_init, fifo_room, toU32, lt_self_iff_false, if_false]
    omega

/-- Instance of C3 at `buf = 0`, `size = 5`. -/
theorem fifo_init_state_witness :
    (fifo_init blank 0 5).fb.head = 0 ∧
    (fifo_init blank 0 5).fb.tail = 0 ∧
    (fifo_init blank 0 5).fb.begin = 0 ∧
    (fifo_init blank 0 5).fb.end_ = 0 + ((5 : Nat) : Int) - 1 ∧
    fifo_isempty (fifo_init blank 0 5).fb = true ∧
    fifo_isfull (fifo_init blank 0 5).fb = false ∧
    fifo_room (fifo_init blank 0 5).fb = 5 - 1 :=
  fifo_init_state blank 0 5 (by decide) (by decide)

/-! ### FIFO order -/

/-- C1: for every `size >= 2` and every sequence of `fifo_push` / `fifo_pop`
calls on a buffer fresh from `fifo_init`, in which no push is issued while
`fifo_isfull` and no pop while `fifo_isempty`, the values returned by the pops
are, in order, the values given to the first pushes: the `i`-th pop returns the
value of the `i`-th push. -/
theorem fifo_order (s : FifoState) (buf : Int) (size : Nat) (h2 : 2 ≤ size) (ops : List Op)
    (hc : inContract ops (fifo_init s buf size) = true) :
    (runOps ops (fifo_init s buf size)).2.length = numPops ops ∧
    (runOps ops (fifo_init s buf size)).2 = (pushed ops).take (numPops ops) := by
  refine ⟨run_length ops _, ?_⟩
  rw [run_queue ops _ (init_inBounds s buf size (by omega)) hc, queue_init]
  rfl

/-- The size-5 scenario of C1: push A, B, C, D; pop; push E; four pops. -/
theorem fifo_order_witness :
    (runOps [Op.push 65, Op.push 66, Op.push 67, Op.push 68, Op.pop, Op.push 69,
        Op.pop, Op.pop, Op.pop, Op.pop] (fifo_init blank 0 5)).2.length =
      numPops [Op.push 65, Op.push 66, Op.push 67, Op.push 68, Op.pop, Op.push 69,
        Op.pop, Op.pop, Op.pop, Op.pop] ∧
    (runOps [Op.push 65, Op.push 66, Op.push 67, Op.push 68, Op.pop, Op.push 69,
        Op.pop, Op.pop, Op.pop, Op.pop] (fifo_init blank 0 5)).2 =
      (pushed [Op.push 65, Op.push 66, Op.push 67, Op.push 68, Op.pop, Op.push 69,
        Op.pop, Op.pop, Op.pop, Op.pop]).take
        (numPops [Op.push 65, Op.push 66, Op.push 67, Op.push 68, Op.pop, Op.push 69,
        Op.pop, Op.pop, Op.pop, Op.pop]) :=
  fifo_order blank 0 5 (by decide)
    [Op.push 65, Op.push 66, Op.push 67, Op.push 68, Op.pop, Op.push 69,
      Op.pop, Op.pop, Op.pop, Op.pop] (by decide)

/-! ### Fullness, room and the boundary predicates -/

/-- C4: in every state with both cursors inside `[begin, end]`, `fifo_isfull`
is true exactly when the tail cursor `fifo_push` would produce (`tail + 1`, or
`begin` when `tail == end`) equals `head`; this covers `head == begin`, where
`head - 1` lies below the storage region. -/
theorem isfull_iff_push_tail_eq_head (s : FifoState) (c : UChar) (hb : InBounds s.fb) :
    ((fifo_push s c).fb.tail = if s.fb.tail = s.fb.end_ then s.fb.begin else s.fb.tail + 1) ∧
    (fifo_isfull s.fb = true ↔ (fifo_push s c).fb.tail = s.fb.head) := by
  refine ⟨by rw [push_tail]; rfl, ?_⟩
  rw [isfull_iff, push_tail]
  unfold InBounds advance at *
  split_ifs <;> omega

/-- Instance of C4 at the wrap case `head = begin = 0`, `tail = end = 3`. -/
theorem isfull_iff_push_tail_eq_head_witness :
    ((fifo_push ⟨⟨0, 3, 0, 3⟩, zeroMem⟩ 7).fb.tail =
        if (3 : Int) = 3 then (0 : Int) else 3 + 1) ∧
    (fifo_isfull ⟨0, 3, 0, 3⟩ = true ↔ (fifo_push ⟨⟨0, 3, 0, 3⟩, zeroMem⟩ 7).fb.tail = 0) :=
  isfull_iff_push_tail_eq_head ⟨⟨0, 3, 0, 3⟩, zeroMem⟩ 7 (by decide)

/-- C5: for `size >= 2` and a state with `end = begin + size - 1` and both
cursors in `[begin, end]`, `fifo_room` is `size - 1` exactly when
`fifo_isempty` is true and is `0` exactly when `fifo_isfull` is true. -/
theorem room_agrees_with_predicates (fb : FIFOBuffer) (size : Nat)
    (h2 : 2 ≤ size) (h32 : size < 2 ^ 32) (hb : InBounds fb) (hs : HasSize fb size) :
    (fifo_room fb = size - 1 ↔ fifo_isempty fb = true) ∧
    (fifo_room fb = 0 ↔ fifo_isfull fb = true) :=
  ⟨room_max_iff fb size h2 h32 hb hs, room_zero_iff fb size h32 hb hs⟩

/-- Instance of C5 on a wrapped, full four-slot buffer. -/
theorem room_agrees_with_predicates_witness :
    (fifo_room ⟨12, 11, 10, 13⟩ = 4 - 1 ↔ fifo_isempty ⟨12, 11, 10, 13⟩ = true) ∧
    (fifo_room ⟨12, 11, 10, 13⟩ = 0 ↔ fifo_isfull ⟨12, 11, 10, 13⟩ = true) :=
  room_agrees_with_predicates ⟨12, 11, 10, 13⟩ 4 (by decide) (by decide) (by decide) (by decide)

/-- C2: starting from `fifo_init` with `size >= 2`, after any call sequence
that never pushes onto a full buffer nor pops from an empty one, with `k`
pushes and `j` pops, `j <= k` and `fifo_room` is `(size - 1) - (k - j)`;
moreover in the state reached a further in-contract push lowers `fifo_room`
by exactly one and a further in-contract pop raises it by exactly one. -/
theorem room_accounting (s : FifoState) (buf : Int) (size : Nat)
    (h2 : 2 ≤ size) (h32 : size < 2 ^ 32) (ops : List Op)
    (hc : inContract ops (fifo_init s buf size) = true) :
    numPops ops ≤ numPushes ops ∧
    (fifo_room (runOps ops (fifo_init s buf size)).1.fb : Int) =
      ((size : Int) - 1) - ((numPushes ops : Int) - (numPops ops : Int)) ∧
    (∀ c, fifo_isfull (runOps ops (fifo_init s buf size)).1.fb = false →
      (fifo_room (fifo_push (runOps ops (fifo_init s buf size)).1 c).fb : Int) =
        (fifo_room (runOps ops (fifo_init s buf size)).1.fb : Int) - 1) ∧
    (fifo_isempty (runOps ops (fifo_init s buf size)).1.fb = false →
      (fifo_room (fifo_pop (runOps ops (fifo_init s buf size)).1).2.fb : Int) =
        (fifo_room (runOps ops (fifo_init s buf size)).1.fb : Int) + 1) := by
  obtain ⟨hb, hs, hr⟩ := run_room size h32 ops (fifo_init s buf size)
    (init_inBounds s buf size (by omega)) (init_hasSize s buf size) hc
  have h0 := (init_room s buf size h2 h32)
  have hle := room_range _ size h32 hb hs
  rw [h0] at hr
  refine ⟨by omega, by omega, fun c hf => room_push _ c size h32 hb hs hf,
    fun he => room_pop _ size h32 hb hs he⟩

/-- Instance of C2: size 5, three pushes and one pop. -/
theorem room_accounting_witness :
    numPops [Op.push 1, Op.push 2, Op.pop, Op.push 3] ≤
      numPushes [Op.push 1, Op.push 2, Op.pop, Op.push 3] ∧
    (fifo_room (runOps [Op.push 1, Op.push 2, Op.pop, Op.push 3] (fifo_init blank 0 5)).1.fb : Int) =
      (((5 : Nat) : Int) - 1) - ((numPushes [Op.push 1, Op.push 2, Op.pop, Op.push 3] : Int) -
        (numPops [Op.push 1, Op.push 2, Op.pop, Op.push 3] : Int)) ∧
    (∀ c, fifo_isfull (runOps [Op.push 1, Op.push 2, Op.pop, Op.push 3] (fifo_init blank 0 5)).1.fb
        = false →
      (fifo_room (fifo_push (runOps [Op.push 1, Op.push 2, Op.pop, Op.push 3]
        (fifo_init blank 0 5)).1 c).fb : Int) =
        (fifo_room (runOps [Op.push 1, Op.push 2, Op.pop, Op.push 3]
          (fifo_init blank 0 5)).1.fb : Int) - 1) ∧
    (fifo_isempty (runOps [Op.push 1, Op.push 2, Op.pop, Op.push 3] (fifo_init blank 0 5)).1.fb
        = false →
      (fifo_room (fifo_pop (runOps [Op.push 1, Op.push 2, Op.pop, Op.push 3]
        (fifo_init blank 0 5)).1).2.fb : Int) =
        (fifo_room (runOps [Op.push 1, Op.push 2, Op.pop, Op.push 3]
          (fifo_init blank 0 5)).1.fb : Int) + 1) :=
  room_accounting blank 0 5 (by decide) (by decide) [Op.push 1, Op.push 2, Op.pop, Op.push 3]
    (by decide)

/-! ### Flush and the cursor-bounds invariant -/

/-- C8: for `size >= 2` and any in-bounds state, after `fifo_flush`
`fifo_isempty` is true and `fifo_room` is `size - 1`; `fifo_flush` sets `head`
to the old `tail` and leaves `tail`, `begin`, `end` and the storage as they
were. -/
theorem flush_empties_in_place (s : FifoState) (size : Nat)
    (h2 : 2 ≤ size) (h32 : size < 2 ^ 32) (hb : InBounds s.fb) (hs : HasSize s.fb size) :
    fifo_isempty (fifo_flush s).fb = true ∧
    fifo_room (fifo_flush s).fb = size - 1 ∧
    (fifo_flush s).fb.head = s.fb.tail ∧
    (fifo_flush s).fb.tail = s.fb.tail ∧
    (fifo_flush s).fb.begin = s.fb.begin ∧
    (fifo_flush s).fb.end_ = s.fb.end_ ∧
    (fifo_flush s).mem = s.mem := by
  have he : fifo_isempty (fifo_flush s).fb = true := by simp [fifo_isempty, fifo_flush]
  refine ⟨he, ?_, rfl, rfl, rfl, rfl, rfl⟩
  exact (room_max_iff _ size h2 h32 (flush_inBounds s hb) hs).2 he

/-- Instance of C8 on a full four-slot buffer. -/
theorem flush_empties_in_place_witness :
    fifo_isempty (fifo_flush ⟨⟨12, 11, 10, 13⟩, zeroMem⟩).fb = true ∧
    fifo_room (fifo_flush ⟨⟨12, 11, 10, 13⟩, zeroMem⟩).fb = 4 - 1 ∧
    (fifo_flush ⟨⟨12, 11, 10, 13⟩, zeroMem⟩).fb.head = 11 ∧
    (fifo_flush ⟨⟨12, 11, 10, 13⟩, zeroMem⟩).fb.tail = 11 ∧
    (fifo_flush ⟨⟨12, 11, 10, 13⟩, zeroMem⟩).fb.begin = 10 ∧
    (fifo_flush ⟨⟨12, 11, 10, 13⟩, zeroMem⟩).fb.end_ = 13 ∧
    (fifo_flush ⟨⟨12, 11, 10, 13⟩, zeroMem⟩).mem = zeroMem :=
  flush_empties_in_place ⟨⟨12, 11, 10, 13⟩, zeroMem⟩ 4 (by decide) (by decide) (by decide)
    (by decide)

/-- C9: for every `size >= 1` the cursor bounds `begin <= head <= end` and
`begin <= tail <= end` hold right after `fifo_init`; each of `fifo_push`,
`fifo_pop` and `fifo_flush` preserves them and leaves `begin` and `end`
untouched; hence they hold, with `begin = buf` and `end = buf + size - 1`, in
every state reached from `fifo_init` by any sequence of these calls. -/
theorem cursor_bounds_invariant (s : FifoState) (buf : Int) (size : Nat) (h1 : 1 ≤ size) :
    InBounds (fifo_init s buf size).fb ∧
    (∀ (t : FifoState) (c : UChar), InBounds t.fb →
      (InBounds (fifo_push t c).fb ∧ (fifo_push t c).fb.begin = t.fb.begin ∧
        (fifo_push t c).fb.end_ = t.fb.end_) ∧
      (InBounds (fifo_pop t).2.fb ∧ (fifo_pop t).2.fb.begin = t.fb.begin ∧
        (fifo_pop t).2.fb.end_ = t.fb.end_) ∧
      (InBounds (fifo_flush t).fb ∧ (fifo_flush t).fb.begin = t.fb.begin ∧
        (fifo_flush t).fb.end_ = t.fb.end_)) ∧
    (∀ calls : List Call,
      InBounds (runCalls calls (fifo_init s buf size)).fb ∧
      (runCalls calls (fifo_init s buf size)).fb.begin = buf ∧
      (runCalls calls (fifo_init s buf size)).fb.end_ = buf + (size : Int) - 1) := by
  refine ⟨init_inBounds s buf size h1, ?_, ?_⟩
  · intro t c ht
    exact ⟨⟨push_inBounds t c ht, push_begin t c, push_end t c⟩,
      ⟨pop_inBounds t ht, pop_begin t, pop_end t⟩,
      ⟨flush_inBounds t ht, rfl, rfl⟩⟩
  · intro calls
    exact runCalls_inv calls (fifo_init s buf size) (init_inBounds s buf size h1)

/-- Instance of C9 at the one-slot buffer, `buf = 0`, `size = 1`. -/
theorem cursor_bounds_invariant_witness :
    InBounds (fifo_init blank 0 1).fb ∧
    (∀ (t : FifoState) (c : UChar), InBounds t.fb →
      (InBounds (fifo_push t c).fb ∧ (fifo_push t c).fb.begin = t.fb.begin ∧
        (fifo_push t c).fb.end_ = t.fb.end_) ∧
      (InBounds (fifo_pop t).2.fb ∧ (fifo_pop t).2.fb.begin = t.fb.begin ∧
        (fifo_pop t).2.fb.end_ = t.fb.end_) ∧
      (InBounds (fifo_flush t).fb ∧ (fifo_flush t).fb.begin = t.fb.begin ∧
        (fifo_flush t).fb.end_ = t.fb.end_)) ∧
    (∀ calls : List Call,
      InBounds (runCalls calls (fifo_init blank 0 1)).fb ∧
      (runCalls calls (fifo_init blank 0 1)).fb.begin = 0 ∧
      (runCalls calls (fifo_init blank 0 1)).fb.end_ = 0 + ((1 : Nat) : Int) - 1) :=
  cursor_bounds_invariant blank 0 1 (by decide)

/-! ### Filling exactly, draining exactly -/

/-- C6: for `size >= 2` and an in-bounds state with `r = fifo_room >= 1`,
pushing `r` values one after the other leaves `fifo_isfull` false as long as
fewer than `r` of them have been pushed and makes it true with the `r`-th. -/
theorem fill_exactly (s : FifoState) (size : Nat) (_h2 : 2 ≤ size) (h32 : size < 2 ^ 32)
    (hb : InBounds s.fb) (hs : HasSize s.fb size) (vs : List UChar)
    (hlen : vs.length = fifo_room s.fb) (_hr : 1 ≤ fifo_room s.fb) :
    (∀ i, i < vs.length → fifo_isfull (pushAll (vs.take i) s).fb = false) ∧
    fifo_isfull (pushAll vs s).fb = true := by
  constructor
  · intro i hi
    obtain ⟨h1, h2, h3⟩ := pushAll_room size h32 (vs.take i) s hb hs
      (by rw [List.length_take]; omega)
    rw [List.length_take] at h3
    cases hfull : fifo_isfull (pushAll (vs.take i) s).fb with
    | false => rfl
    | true => have := (room_zero_iff _ size h32 h1 h2).2 hfull; omega
  · obtain ⟨h1, h2, h3⟩ := pushAll_room size h32 vs s hb hs (by omega)
    exact (room_zero_iff _ size h32 h1 h2).1 (by omega)

/-- The size-2 scenario of C6: one push fills the buffer. -/
theorem fill_exactly_witness :
    (∀ i, i < [(42 : UChar)].length →
      fifo_isfull (pushAll ([(42 : UChar)].take i) (fifo_init blank 0 2)).fb = false) ∧
    fifo_isfull (pushAll [(42 : UChar)] (fifo_init blank 0 2)).fb = true :=
  fill_exactly (fifo_init blank 0 2) 2 (by decide) (by decide) (by decide) (by decide)
    [(42 : UChar)] (by decide) (by decide)

/-- C7: for `size >= 2` and an in-bounds state holding
`n = (size - 1) - fifo_room >= 1` elements, popping `n` times leaves
`fifo_isempty` false as long as fewer than `n` pops have been made and makes it
true with the `n`-th. -/
theorem drain_exactly (s : FifoState) (size : Nat) (h2 : 2 ≤ size) (h32 : size < 2 ^ 32)
    (hb : InBounds s.fb) (hs : HasSize s.fb size)
    (hn : 1 ≤ (size - 1) - fifo_room s.fb) :
    (∀ i, i < (size - 1) - fifo_room s.fb → fifo_isempty (popN i s).fb = false) ∧
    fifo_isempty (popN ((size - 1) - fifo_room s.fb) s).fb = true := by
  constructor
  · intro i hi
    obtain ⟨h1, h2b, h3⟩ := popN_room size h2 h32 i s hb hs (by omega)
    cases hemp : fifo_isempty (popN i s).fb with
    | false => rfl
    | true => have := (room_max_iff _ size h2 h32 h1 h2b).2 hemp; omega
  · obtain ⟨h1, h2b, h3⟩ := popN_room size h2 h32 ((size - 1) - fifo_room s.fb) s hb hs
      (by omega)
    exact (room_max_iff _ size h2 h32 h1 h2b).1 (by omega)

/-- Instance of C7 on a wrapped, full four-slot buffer holding three elements. -/
theorem drain_exactly_witness :
    (∀ i, i < (4 - 1) - fifo_room ⟨12, 11, 10, 13⟩ →
      fifo_isempty (popN i ⟨⟨12, 11, 10, 13⟩, zeroMem⟩).fb = false) ∧
    fifo_isempty (popN ((4 - 1) - fifo_room ⟨12, 11, 10, 13⟩)
      ⟨⟨12, 11, 10, 13⟩, zeroMem⟩).fb = true :=
  drain_exactly ⟨⟨12, 11, 10, 13⟩, zeroMem⟩ 4 (by decide) (by decide) (by decide) (by decide)
    (by decide)

/-! ### The wrap scenario -/

/-- C10: on a buffer of size 4 fresh from `fifo_init`, the calls push `v1`,
push `v2`, push `v3`, pop, pop, push `v4`, push `v5`, push `v6`, pop, pop, pop,
pop, each performed unconditionally, return from the six pops exactly
`v1, v2, v3, v4, v5, v6`. -/
theorem wrap_scenario (s : FifoState) (buf : Int) (v1 v2 v3 v4 v5 v6 : UChar) :
    (runOps [Op.push v1, Op.push v2, Op.push v3, Op.pop, Op.pop, Op.push v4, Op.push v5,
      Op.push v6, Op.pop, Op.pop, Op.pop, Op.pop] (fifo_init s buf 4)).2 =
      [v1, v2, v3, v4, v5, v6] := by
  have he : buf + ((4 : Nat) : Int) - 1 = buf + 3 := by omega
  have a1 : buf + 1 + 1 = buf + 2 := by omega
  have a2 : buf + 2 + 1 = buf + 3 := by omega
  have n0 : ¬ (buf = buf + 3) := by omega
  have n1 : ¬ (buf + 1 = buf + 3) := by omega
  have n2 : ¬ (buf + 2 = buf + 3) := by omega
  have m01 : ¬ (buf = buf + 1) := by omega
  have m02 : ¬ (buf = buf + 2) := by omega
  have m10 : ¬ (buf + 1 = buf) := by omega
  have m12 : ¬ (buf + 1 = buf + 2) := by omega
  have m13 : ¬ (buf + 1 = buf + 3) := by omega
  have m20 : ¬ (buf + 2 = buf) := by omega
  have m21 : ¬ (buf + 2 = buf + 1) := by omega
  have m30 : ¬ (buf + 3 = buf) := by omega
  have m31 : ¬ (buf + 3 = buf + 1) := by omega
  have m32 : ¬ (buf + 3 = buf + 2) := by omega
  rw [init_mk, he]
  simp only [runOps, push_mk, pop_mk, if_true, if_false, a1, a2, n0, n1, n2, Function.update,
    m01, m02, m10, m12, m13, m20, m21, m30, m31, m32, eq_rec_constant, dite_eq_ite]

/-! ### Length -/

theorem push_len (t : FifoState) (c : UChar) : fifo_len (fifo_push t c).fb = fifo_len t.fb := by
  unfold fifo_len; rw [push_begin, push_end]

theorem pop_len (t : FifoState) : fifo_len (fifo_pop t).2.fb = fifo_len t.fb := by
  unfold fifo_len; rw [pop_begin, pop_end]

theorem runCalls_frame (calls : List Call) :
    ∀ s : FifoState, (runCalls calls s).fb.begin = s.fb.begin ∧
      (runCalls calls s).fb.end_ = s.fb.end_ := by
  induction calls with
  | nil => intro s; exact ⟨rfl, rfl⟩
  | cons c cs ih =>
    intro s
    cases c with
    | push v =>
      obtain ⟨h1, h2⟩ := ih (fifo_push s v)
      exact ⟨by rw [← push_begin s v]; exact h1, by rw [← push_end s v]; exact h2⟩
    | pop =>
      obtain ⟨h1, h2⟩ := ih (fifo_pop s).2
      exact ⟨by rw [← pop_begin s]; exact h1, by rw [← pop_end s]; exact h2⟩
    | flush => exact ih (fifo_flush s)

theorem init_len (s : FifoState) (buf : Int) (size : Nat) (h1 : 1 ≤ size)
    (h32 : size < 2 ^ 32) : (fifo_len (fifo_init s buf size).fb : Int) = (size : Int) - 1 := by
  have h32i : (size : Int) < 2 ^ 32 := by exact_mod_cast h32
  unfold fifo_len
  rw [toU32_of_range _ (by simp only [fifo_init]; omega) (by simp only [fifo_init]; omega)]
  simp only [fifo_init]; omega

/-- C11: `fifo_len` is the pointer difference `end - begin` (as `uint32_t`) in
every state and is left unchanged by every `fifo_push`, `fifo_pop` and
`fifo_flush`; so in every state reached from `fifo_init(fb, buf, size)` by any
sequence of these calls it returns the same number, `end - begin = size - 1`,
whatever the number of stored elements. -/
theorem fifo_len_fixed (s : FifoState) (buf : Int) (size : Nat)
    (h1 : 1 ≤ size) (h32 : size < 2 ^ 32) :
    (∀ fb : FIFOBuffer, fifo_len fb = toU32 (fb.end_ - fb.begin)) ∧
    (∀ (t : FifoState) (c : UChar),
      fifo_len (fifo_push t c).fb = fifo_len t.fb ∧
      fifo_len (fifo_pop t).2.fb = fifo_len t.fb ∧
      fifo_len (fifo_flush t).fb = fifo_len t.fb) ∧
    (∀ calls : List Call,
      fifo_len (runCalls calls (fifo_init s buf size)).fb = fifo_len (fifo_init s buf size).fb ∧
      (fifo_len (runCalls calls (fifo_init s buf size)).fb : Int) =
        (runCalls calls (fifo_init s buf size)).fb.end_ -
          (runCalls calls (fifo_init s buf size)).fb.begin ∧
      (fifo_len (runCalls calls (fifo_init s buf size)).fb : Int) = (size : Int) - 1) := by
  refine ⟨fun _ => rfl, fun t c => ⟨push_len t c, pop_len t, rfl⟩, ?_⟩
  intro calls
  obtain ⟨hb, he⟩ := runCalls_frame calls (fifo_init s buf size)
  have hsame : fifo_len (runCalls calls (fifo_init s buf size)).fb =
      fifo_len (fifo_init s buf size).fb := by
    unfold fifo_len; rw [hb, he]
  have hl := init_len s buf size h1 h32
  refine ⟨hsame, ?_, ?_⟩
  · rw [hsame, hl, hb, he]; simp only [fifo_init]; omega
  · rw [hsame, hl]

/-- Instance of C11 at `buf = 0`, `size = 5`. -/
theorem fifo_len_fixed_witness :
    (∀ fb : FIFOBuffer, fifo_len fb = toU32 (fb.end_ - fb.begin)) ∧
    (∀ (t : FifoState) (c : UChar),
      fifo_len (fifo_push t c).fb = fifo_len t.fb ∧
      fifo_len (fifo_pop t).2.fb = fifo_len t.fb ∧
      fifo_len (fifo_flush t).fb = fifo_len t.fb) ∧
    (∀ calls : List Call,
      fifo_len (runCalls calls (fifo_init blank 0 5)).fb = fifo_len (fifo_init blank 0 5).fb ∧
      (fifo_len (runCalls calls (fifo_init blank 0 5)).fb : Int) =
        (runCalls calls (fifo_init blank 0 5)).fb.end_ -
          (runCalls calls (fifo_init blank 0 5)).fb.begin ∧
      (fifo_len (runCalls calls (fifo_init blank 0 5)).fb : Int) = ((5 : Nat) : Int) - 1) :=
  fifo_len_fixed blank 0 5 (by decide) (by decide)

/-- C12, as stated, fails: on the two-slot buffer `fifo_init(fb, 0, 2)` the
storage has `end - begin + 1 = 2 = size` slots, yet `fifo_len` returns `1`. -/
theorem fifo_len_not_slot_count :
    (2 : Nat) ≤ 2 ∧
    spec_capacity_in_slots (fifo_init blank 0 2).fb = ((2 : Nat) : Int) ∧
    fifo_len (fifo_init blank 0 2).fb = 1 ∧
    ¬ ((fifo_len (fifo_init blank 0 2).fb : Int) =
        spec_capacity_in_slots (fifo_init blank 0 2).fb) ∧
    ¬ (fifo_len (fifo_init blank 0 2).fb = 2) := by
  decide

/-- C12, amended: for every `size >= 2` (a `uint32_t`), after `fifo_init`
`fifo_len` equals `end - begin = size - 1`, one less than the number of slots
`capacity_in_slots = end - begin + 1 = size`; it is the usable capacity, the
value `fifo_room` has on the empty buffer. -/
theorem fifo_len_after_init (s : FifoState) (buf : Int) (size : Nat)
    (h2 : 2 ≤ size) (h32 : size < 2 ^ 32) :
    spec_capacity_in_slots (fifo_init s buf size).fb = (size : Int) ∧
    (fifo_len (fifo_init s buf size).fb : Int) =
      (fifo_init s buf size).fb.end_ - (fifo_init s buf size).fb.begin ∧
    fifo_len (fifo_init s buf size).fb = size - 1 ∧
    (fifo_len (fifo_init s buf size).fb : Int) =
      spec_capacity_in_slots (fifo_init s buf size).fb - 1 ∧
    fifo_len (fifo_init s buf size).fb = fifo_room (fifo_init s buf size).fb := by
  have hl := init_len s buf size (by omega) h32
  have hr := init_room s buf size h2 h32
  have hc : spec_capacity_in_slots (fifo_init s buf size).fb = (size : Int) := by
    simp only [spec_capacity_in_slots, fifo_init]; omega
  refine ⟨hc, ?_, by omega, by omega, by omega⟩
  rw [hl]; simp only [fifo_init]; omega

/-- Instance of the amended C12 at `buf = 0`, `size = 5`. -/
theorem fifo_len_after_init_witness :
    spec_capacity_in_slots (fifo_init blank 0 5).fb = ((5 : Nat) : Int) ∧
    (fifo_len (fifo_init blank 0 5).fb : Int) =
      (fifo_init blank 0 5).fb.end_ - (fifo_init blank 0 5).fb.begin ∧
    fifo_len (fifo_init blank 0 5).fb = 5 - 1 ∧
    (fifo_len (fifo_init blank 0 5).fb : Int) =
      spec_capacity_in_slots (fifo_init blank 0 5).fb - 1 ∧
    fifo_len (fifo_init blank 0 5).fb = fifo_room (fifo_init blank 0 5).fb :=
  fifo_len_after_init blank 0 5 (by decide) (by decide)

/-! ### One-slot buffers, exclusivity of empty and full -/

/-- C13: `fifo_init(fb, buf, 1)` is accepted like any other size and yields
`begin = end = head = tail = buf`, a state in which `fifo_isempty` and
`fifo_isfull` are both true. -/
theorem one_slot_ambiguous (s : FifoState) (buf : Int) :
    (fifo_init s buf 1).fb.begin = buf ∧
    (fifo_init s buf 1).fb.end_ = buf ∧
    (fifo_init s buf 1).fb.head = buf ∧
    (fifo_init s buf 1).fb.tail = buf ∧
    (fifo_init s buf 1).mem = s.mem ∧
    fifo_isempty (fifo_init s buf 1).fb = true ∧
    fifo_isfull (fifo_init s buf 1).fb = true := by
  refine ⟨rfl, ?_, rfl, rfl, rfl, ?_, ?_⟩
  · simp only [fifo_init]; omega
  · simp [fifo_init, fifo_isempty]
  · rw [isfull_iff]
    left
    simp [fifo_init]

/-- C16: for `size >= 2` and a state with `end = begin + size - 1` and both
cursors in `[begin, end]`, `fifo_isempty` and `fifo_isfull` are never both
true. -/
theorem empty_full_exclusive (fb : FIFOBuffer) (size : Nat) (h2 : 2 ≤ size)
    (_hb : InBounds fb) (hs : HasSize fb size) :
    ¬ (fifo_isempty fb = true ∧ fifo_isfull fb = true) := by
  rw [isempty_iff, isfull_iff]
  unfold HasSize at hs
  omega

/-- Instance of C16 on an empty four-slot buffer. -/
theorem empty_full_exclusive_witness :
    ¬ (fifo_isempty ⟨11, 11, 10, 13⟩ = true ∧ fifo_isfull ⟨11, 11, 10, 13⟩ = true) :=
  empty_full_exclusive ⟨11, 11, 10, 13⟩ 4 (by decide) (by decide) (by decide)

/-! ### Frame of push and pop -/

/-- C15: `fifo_push(fb, v)` leaves `head`, `begin` and `end` as they were and
changes the storage only at the old `tail`, which becomes `v` (its one cursor
update is on `tail`); `fifo_pop(fb)` leaves `tail`, `begin`, `end` and the whole
storage as they were (its one cursor update is on `head`) and returns the value
stored at the old `head`. -/
theorem push_pop_frame (s : FifoState) (v : UChar) :
    ((fifo_push s v).fb.head = s.fb.head ∧
      (fifo_push s v).fb.begin = s.fb.begin ∧
      (fifo_push s v).fb.end_ = s.fb.end_ ∧
      (fifo_push s v).fb.tail = (if s.fb.tail = s.fb.end_ then s.fb.begin else s.fb.tail + 1) ∧
      (fifo_push s v).mem s.fb.tail = v ∧
      (∀ p : Int, (fifo_push s v).mem p = if p = s.fb.tail then v else s.mem p)) ∧
    ((fifo_pop s).2.fb.tail = s.fb.tail ∧
      (fifo_pop s).2.fb.begin = s.fb.begin ∧
      (fifo_pop s).2.fb.end_ = s.fb.end_ ∧
      (fifo_pop s).2.fb.head = (if s.fb.head = s.fb.end_ then s.fb.begin else s.fb.head + 1) ∧
      (fifo_pop s).2.mem = s.mem ∧
      (fifo_pop s).1 = s.mem s.fb.head) := by
  refine ⟨⟨push_head s v, push_begin s v, push_end s v, by rw [push_tail]; rfl, ?_, ?_⟩,
    ⟨pop_tail s, pop_begin s, pop_end s, by rw [pop_head]; rfl, pop_mem s, pop_value s⟩⟩
  · rw [push_mem]; simp
  · intro p
    rw [push_mem]
    simp [Function.update]

/-! ### Wrap as modular arithmetic -/

/-- C17: for `size >= 1`, `end = begin + size - 1` and a cursor `p` in
`[begin, end]`, the new `tail` computed by `fifo_push` from `tail = p` and the
new `head` computed by `fifo_pop` from `head = p` both equal
`begin + ((p - begin + 1) mod size)`. -/
theorem wrap_is_modular (s : FifoState) (c : UChar) (size : Nat) (_h1 : 1 ≤ size)
    (hs : HasSize s.fb size) :
    (s.fb.begin ≤ s.fb.tail → s.fb.tail ≤ s.fb.end_ →
      (fifo_push s c).fb.tail = spec_modular_step s.fb.begin size s.fb.tail) ∧
    (s.fb.begin ≤ s.fb.head → s.fb.head ≤ s.fb.end_ →
      (fifo_pop s).2.fb.head = spec_modular_step s.fb.begin size s.fb.head) := by
  unfold HasSize at hs
  constructor
  · intro hp1 hp2
    rw [push_tail]
    unfold advance spec_modular_step
    split
    · next hpe =>
      have : s.fb.tail - s.fb.begin + 1 = (size : Int) := by omega
      rw [this, Int.emod_self]; omega
    · next hpe =>
      rw [Int.emod_eq_of_lt (by omega) (by omega)]; omega
  · intro hp1 hp2
    rw [pop_head]
    unfold advance spec_modular_step
    split
    · next hpe =>
      have : s.fb.head - s.fb.begin + 1 = (size : Int) := by omega
      rw [this, Int.emod_self]; omega
    · next hpe =>
      rw [Int.emod_eq_of_lt (by omega) (by omega)]; omega

/-- Instance of C17 on a four-slot buffer with `tail` at `end` and `head` inside. -/
theorem wrap_is_modular_witness :
    ((10 : Int) ≤ 13 → (13 : Int) ≤ 13 →
      (fifo_push ⟨⟨11, 13, 10, 13⟩, zeroMem⟩ 7).fb.tail = spec_modular_step 10 4 13) ∧
    ((10 : Int) ≤ 11 → (11 : Int) ≤ 13 →
      (fifo_pop ⟨⟨11, 13, 10, 13⟩, zeroMem⟩).2.fb.head = spec_modular_step 10 4 11) :=
  wrap_is_modular ⟨⟨11, 13, 10, 13⟩, zeroMem⟩ 7 4 (by decide) (by decide)

/-! ### Producer and consumer steps -/

/-- C19: for `size >= 2` and an in-bounds state that is neither empty nor full,
`fifo_push(fb, v)` followed by `fifo_pop(fb)` gives the same popped value and
the same final state (descriptor and storage) as `fifo_pop(fb)` followed by
`fifo_push(fb, v)`. -/
theorem push_pop_commute (s : FifoState) (v : UChar) (size : Nat) (_h2 : 2 ≤ size)
    (_hb : InBounds s.fb) (_hs : HasSize s.fb size)
    (he : fifo_isempty s.fb = false) (_hf : fifo_isfull s.fb = false) :
    fifo_pop (fifo_push s v) = ((fifo_pop s).1, fifo_push (fifo_pop s).2 v) := by
  have hne : ¬ (s.fb.head = s.fb.tail) := by
    rw [← isempty_iff, he]; simp
  obtain ⟨⟨h, t, b, e⟩, m⟩ := s
  simp only at hne
  rw [push_mk, pop_mk, pop_mk, push_mk, Function.update_noteq hne]

/-- Instance of C19 on a four-slot buffer holding one element. -/
theorem push_pop_commute_witness :
    fifo_pop (fifo_push ⟨⟨11, 12, 10, 13⟩, zeroMem⟩ 7) =
      ((fifo_pop ⟨⟨11, 12, 10, 13⟩, zeroMem⟩).1,
        fifo_push (fifo_pop ⟨⟨11, 12, 10, 13⟩, zeroMem⟩).2 7) :=
  push_pop_commute ⟨⟨11, 12, 10, 13⟩, zeroMem⟩ 7 4 (by decide) (by decide) (by decide)
    (by decide) (by decide)

/-- C20: for `size >= 2` (a `uint32_t`) and an in-bounds state with
`fifo_isfull` true, `fifo_push(fb, v)` goes through like any other push and
produces a state with `tail == head`, in which `fifo_isempty` is true and
`fifo_room` is `size - 1`. -/
theorem push_on_full (s : FifoState) (v : UChar) (size : Nat) (h2 : 2 ≤ size)
    (h32 : size < 2 ^ 32) (hb : InBounds s.fb) (hs : HasSize s.fb size)
    (hf : fifo_isfull s.fb = true) :
    (fifo_push s v).fb.tail = (fifo_push s v).fb.head ∧
    (fifo_push s v).fb.head = s.fb.head ∧
    (fifo_push s v).mem = Function.update s.mem s.fb.tail v ∧
    fifo_isempty (fifo_push s v).fb = true ∧
    fifo_room (fifo_push s v).fb = size - 1 := by
  have hfull := (isfull_iff s.fb).1 hf
  have ht : (fifo_push s v).fb.tail = (fifo_push s v).fb.head := by
    rw [push_tail, push_head]
    unfold InBounds advance at *
    split_ifs <;> omega
  have hemp : fifo_isempty (fifo_push s v).fb = true := (isempty_iff _).2 ht.symm
  exact ⟨ht, push_head s v, push_mem s v, hemp,
    (room_max_iff _ size h2 h32 (push_inBounds s v hb) (push_hasSize s v size hs)).2 hemp⟩

/-- Instance of C20 on a wrapped, full four-slot buffer. -/
theorem push_on_full_witness :
    (fifo_push ⟨⟨12, 11, 10, 13⟩, zeroMem⟩ 7).fb.tail =
      (fifo_push ⟨⟨12, 11, 10, 13⟩, zeroMem⟩ 7).fb.head ∧
    (fifo_push ⟨⟨12, 11, 10, 13⟩, zeroMem⟩ 7).fb.head = 12 ∧
    (fifo_push ⟨⟨12, 11, 10, 13⟩, zeroMem⟩ 7).mem = Function.update zeroMem 11 7 ∧
    fifo_isempty (fifo_push ⟨⟨12, 11, 10, 13⟩, zeroMem⟩ 7).fb = true ∧
    fifo_room (fifo_push ⟨⟨12, 11, 10, 13⟩, zeroMem⟩ 7).fb = 4 - 1 :=
  push_on_full ⟨⟨12, 11, 10, 13⟩, zeroMem⟩ 7 4 (by decide) (by decide) (by decide) (by decide)
    (by decide)

/-! ### The 16-bit variant is the same machine -/

theorem observe_eq (fb : FIFOBuffer) (fq : FIFOBuffer_q15) (h : SameOffsets fb fq) :
    observe fb = observe_q15 fq := by
  obtain ⟨h1, h2, h3⟩ := h
  have he : fifo_isempty fb = fifo_isempty_q15 fq := by
    unfold fifo_isempty fifo_isempty_q15
    exact decide_eq_decide.2 (by omega)
  have hf : fifo_isfull fb = fifo_isfull_q15 fq := by
    unfold fifo_isfull fifo_isfull_q15
    have a : (fb.head = fb.begin) ↔ (fq.head = fq.begin) := by omega
    have b : (fb.tail = fb.end_) ↔ (fq.tail = fq.end_) := by omega
    have c : (fb.tail = fb.head - 1) ↔ (fq.tail = fq.head - 1) := by omega
    rw [decide_eq_decide.2 a, decide_eq_decide.2 b, decide_eq_decide.2 c]
  unfold observe observe_q15
  rw [h1, h2, h3, he, hf]

theorem push_sameOffsets (s : FifoState) (q : FifoState_q15) (c : UChar) (d : Q15)
    (h : SameOffsets s.fb q.fb) : SameOffsets (fifo_push s c).fb (fifo_push_q15 q d).fb := by
  unfold SameOffsets at *
  unfold fifo_push fifo_push_q15
  by_cases h8 : s.fb.tail = s.fb.end_
  · have h16 : q.fb.tail = q.fb.end_ := by omega
    rw [if_pos h8, if_pos h16]
    simp only
    omega
  · have h16 : ¬ (q.fb.tail = q.fb.end_) := by omega
    rw [if_neg h8, if_neg h16]
    simp only
    omega

theorem pop_sameOffsets (s : FifoState) (q : FifoState_q15)
    (h : SameOffsets s.fb q.fb) : SameOffsets (fifo_pop s).2.fb (fifo_pop_q15 q).2.fb := by
  unfold SameOffsets at *
  unfold fifo_pop fifo_pop_q15
  by_cases h8 : s.fb.head = s.fb.end_
  · have h16 : q.fb.head = q.fb.end_ := by omega
    rw [if_pos h8, if_pos h16]
    simp only
    omega
  · have h16 : ¬ (q.fb.head = q.fb.end_) := by omega
    rw [if_neg h8, if_neg h16]
    simp only
    omega

theorem init_sameOffsets (s : FifoState) (q : FifoState_q15) (buf buf16 : Int) (size : Nat) :
    SameOffsets (fifo_init s buf size).fb (fifo_init_q15 q buf16 size).fb := by
  unfold SameOffsets fifo_init fifo_init_q15
  simp only
  omega

theorem trace_eq (ops : List Op) :
    ∀ (ops16 : List Op_q15) (s : FifoState) (q : FifoState_q15),
      sameCalls ops ops16 = true → SameOffsets s.fb q.fb →
      trace ops s = trace_q15 ops16 q := by
  induction ops with
  | nil =>
    intro ops16 s q hc h
    cases ops16 with
    | nil => simp only [trace, trace_q15, observe_eq s.fb q.fb h]
    | cons o os => simp [sameCalls] at hc
  | cons op ops ih =>
    intro ops16 s q hc h
    cases ops16 with
    | nil => cases op <;> simp [sameCalls] at hc
    | cons o os =>
      cases op with
      | push c =>
        cases o with
        | push d =>
          simp only [sameCalls] at hc
          simp only [trace, trace_q15, observe_eq s.fb q.fb h]
          rw [ih os _ _ hc (push_sameOffsets s q c d h)]
        | pop => simp [sameCalls] at hc
      | pop =>
        cases o with
        | push d => simp [sameCalls] at hc
        | pop =>
          simp only [sameCalls] at hc
          simp only [trace, trace_q15, observe_eq s.fb q.fb h]
          rw [ih os _ _ hc (pop_sameOffsets s q h)]

theorem push_q15_mk (h t b e : Int) (m : Mem_q15) (c : Q15) :
    fifo_push_q15 ⟨⟨h, t, b, e⟩, m⟩ c =
      ⟨⟨h, if t = e then b else t + 1, b, e⟩, Function.update m t c⟩ := by
  unfold fifo_push_q15
  split <;> rfl

theorem pop_q15_mk (h t b e : Int) (m : Mem_q15) :
    fifo_pop_q15 ⟨⟨h, t, b, e⟩, m⟩ =
      (m h, ⟨⟨if h = e then b else h + 1, t, b, e⟩, m⟩) := by
  unfold fifo_pop_q15
  split
  · next hh => simp only at hh; subst hh; rfl
  · rfl

theorem relCalls_sameCalls (R : UChar → Q15 → Prop) (ops : List Op) :
    ∀ ops16 : List Op_q15, RelCalls R ops ops16 → sameCalls ops ops16 = true := by
  induction ops with
  | nil =>
    intro ops16 h
    cases ops16 with
    | nil => rfl
    | cons o os => simp [RelCalls] at h
  | cons op ops ih =>
    intro ops16 h
    cases ops16 with
    | nil => cases op <;> simp [RelCalls] at h
    | cons o os =>
      cases op with
      | push c =>
        cases o with
        | push d => simp only [RelCalls] at h; simp only [sameCalls]; exact ih os h.2
        | pop => simp [RelCalls] at h
      | pop =>
        cases o with
        | push d => simp [RelCalls] at h
        | pop => simp only [RelCalls] at h; simp only [sameCalls]; exact ih os h

theorem relCalls_take (R : UChar → Q15 → Prop) (ops : List Op) :
    ∀ (ops16 : List Op_q15) (n : Nat), RelCalls R ops ops16 →
      RelCalls R (ops.take n) (ops16.take n) := by
  induction ops with
  | nil =>
    intro ops16 n h
    cases ops16 with
    | nil => simp [RelCalls]
    | cons o os => simp [RelCalls] at h
  | cons op ops ih =>
    intro ops16 n h
    cases ops16 with
    | nil => cases op <;> simp [RelCalls] at h
    | cons o os =>
      cases n with
      | zero => simp [RelCalls]
      | succ n =>
        cases op with
        | push c =>
          cases o with
          | push d =>
            simp only [RelCalls] at h
            simp only [List.take_succ_cons, RelCalls]
            exact ⟨h.1, ih os n h.2⟩
          | pop => simp [RelCalls] at h
        | pop =>
          cases o with
          | push d => simp [RelCalls] at h
          | pop =>
            simp only [RelCalls] at h
            simp only [List.take_succ_cons, RelCalls]
            exact ih os n h

/-- A push of related values keeps the two buffers in simulation: the value is
stored in the same slot on both sides. -/
theorem push_simulates (R : UChar → Q15 → Prop) (size : Nat) (s : FifoState)
    (q : FifoState_q15) (c : UChar) (d : Q15) (hR : R c d) (h : Simulates R size s q) :
    Simulates R size (fifo_push s c) (fifo_push_q15 q d) := by
  obtain ⟨hoff, hb, hs, hm⟩ := h
  refine ⟨push_sameOffsets s q c d hoff, push_inBounds s c hb, push_hasSize s c size hs, ?_⟩
  obtain ⟨⟨h8, t8, b8, e8⟩, m8⟩ := s
  obtain ⟨⟨h16, t16, b16, e16⟩, m16⟩ := q
  unfold SameOffsets at hoff
  unfold StorageRel at *
  simp only [push_mk, push_q15_mk] at *
  intro i hi0 hi1
  rw [Function.update_apply, Function.update_apply]
  by_cases hti : b8 + i = t8
  · have hti16 : b16 + i = t16 := by omega
    rw [if_pos hti, if_pos hti16]; exact hR
  · have hti16 : ¬ (b16 + i = t16) := by omega
    rw [if_neg hti, if_neg hti16]; exact hm i hi0 hi1

/-- A pop returns related values on the two sides and keeps them in simulation. -/
theorem pop_simulates (R : UChar → Q15 → Prop) (size : Nat) (s : FifoState)
    (q : FifoState_q15) (h : Simulates R size s q) :
    R (fifo_pop s).1 (fifo_pop_q15 q).1 ∧ Simulates R size (fifo_pop s).2 (fifo_pop_q15 q).2 := by
  obtain ⟨hoff, hb, hs, hm⟩ := h
  refine ⟨?_, pop_sameOffsets s q hoff, pop_inBounds s hb, pop_hasSize s size hs, ?_⟩
  · obtain ⟨⟨h8, t8, b8, e8⟩, m8⟩ := s
    obtain ⟨⟨h16, t16, b16, e16⟩, m16⟩ := q
    unfold SameOffsets at hoff
    unfold InBounds at hb
    unfold HasSize at hs
    unfold StorageRel at hm
    simp only [pop_mk, pop_q15_mk] at *
    have := hm (h8 - b8) (by omega) (by omega)
    have e1 : b8 + (h8 - b8) = h8 := by omega
    have e2 : b16 + (h8 - b8) = h16 := by omega
    rw [e1, e2] at this
    exact this
  · obtain ⟨⟨h8, t8, b8, e8⟩, m8⟩ := s
    obtain ⟨⟨h16, t16, b16, e16⟩, m16⟩ := q
    unfold StorageRel at *
    simp only [pop_mk, pop_q15_mk] at *
    exact hm

theorem init_simulates (R : UChar → Q15 → Prop) (size : Nat) (h1 : 1 ≤ size) (s : FifoState)
    (q : FifoState_q15) (buf buf16 : Int)
    (hm : StorageRel R size (fifo_init s buf size) (fifo_init_q15 q buf16 size)) :
    Simulates R size (fifo_init s buf size) (fifo_init_q15 q buf16 size) :=
  ⟨init_sameOffsets s q buf buf16 size, init_inBounds s buf size h1,
    init_hasSize s buf size, hm⟩

/-- Along runs making related calls the popped values are related one by one
and the two buffers stay in simulation. -/
theorem run_simulates (R : UChar → Q15 → Prop) (size : Nat) (ops : List Op) :
    ∀ (ops16 : List Op_q15) (s : FifoState) (q : FifoState_q15),
      RelCalls R ops ops16 → Simulates R size s q →
      List.Forall₂ R (runOps ops s).2 (runOps_q15 ops16 q).2 ∧
      Simulates R size (runOps ops s).1 (runOps_q15 ops16 q).1 := by
  induction ops with
  | nil =>
    intro ops16 s q hc h
    cases ops16 with
    | nil => exact ⟨List.Forall₂.nil, h⟩
    | cons o os => simp [RelCalls] at hc
  | cons op ops ih =>
    intro ops16 s q hc h
    cases ops16 with
    | nil => cases op <;> simp [RelCalls] at hc
    | cons o os =>
      cases op with
      | push c =>
        cases o with
        | push d =>
          simp only [RelCalls] at hc
          simp only [runOps, runOps_q15]
          exact ih os _ _ hc.2 (push_simulates R size s q c d hc.1 h)
        | pop => simp [RelCalls] at hc
      | pop =>
        cases o with
        | push d => simp [RelCalls] at hc
        | pop =>
          simp only [RelCalls] at hc
          simp only [runOps, runOps_q15]
          obtain ⟨hv, hsim⟩ := pop_simulates R size s q h
          obtain ⟨h1, h2⟩ := ih os _ _ hc hsim
          exact ⟨List.Forall₂.cons hv h1, h2⟩

/-- C18: the 16-bit operations are the same machine as the 8-bit ones up to
the element type.  Take any relation `R` between bytes and 16-bit elements, any
`size`, and two call sequences making the same calls in the same order, with
`R`-related values at corresponding pushes.  Then the run of `fifo_init_q15`,
`fifo_push_q15`, `fifo_pop_q15` shows before the first call and after each call
the same cursor offsets `head - begin`, `tail - begin`, `end - begin` and the
same `fifo_isempty_q15` / `fifo_isfull_q15` results as the run of `fifo_init`,
`fifo_push`, `fifo_pop` with `fifo_isempty` / `fifo_isfull`.  If moreover
`size >= 1` and the two storages start with `R`-related contents slot by slot,
the values returned by the pops are `R`-related one by one, and after every
number of calls the two storages again hold `R`-related contents slot by
slot. -/
theorem q15_same_machine (R : UChar → Q15 → Prop) (s : FifoState) (q : FifoState_q15)
    (buf buf16 : Int) (size : Nat) (ops : List Op) (ops16 : List Op_q15)
    (hc : RelCalls R ops ops16) :
    trace ops (fifo_init s buf size) = trace_q15 ops16 (fifo_init_q15 q buf16 size) ∧
    (1 ≤ size →
      StorageRel R size (fifo_init s buf size) (fifo_init_q15 q buf16 size) →
      List.Forall₂ R (runOps ops (fifo_init s buf size)).2
        (runOps_q15 ops16 (fifo_init_q15 q buf16 size)).2 ∧
      ∀ n : Nat, StorageRel R size (runOps (ops.take n) (fifo_init s buf size)).1
        (runOps_q15 (ops16.take n) (fifo_init_q15 q buf16 size)).1) := by
  refine ⟨trace_eq ops ops16 _ _ (relCalls_sameCalls R ops ops16 hc)
    (init_sameOffsets s q buf buf16 size), ?_⟩
  intro h1 hm
  have hsim := init_simulates R size h1 s q buf buf16 hm
  refine ⟨(run_simulates R size ops ops16 _ _ hc hsim).1, ?_⟩
  intro n
  exact (run_simulates R size (ops.take n) (ops16.take n) _ _
    (relCalls_take R ops ops16 n hc) hsim).2.2.2.2

/-- Instance of C18: size 3, an overflowing run of four pushes and two pops,
the 16-bit side pushing each byte scaled by 256. -/
theorem q15_same_machine_witness :
    trace [Op.push 1, Op.push 2, Op.pop, Op.push 3, Op.push 4, Op.pop]
        (fifo_init blank 100 3) =
      trace_q15 [Op_q15.push 256, Op_q15.push 512, Op_q15.pop, Op_q15.push 768,
        Op_q15.push 1024, Op_q15.pop] (fifo_init_q15 blank_q15 7 3) ∧
    List.Forall₂ scaled
      (runOps [Op.push 1, Op.push 2, Op.pop, Op.push 3, Op.push 4, Op.pop]
        (fifo_init blank 100 3)).2
      (runOps_q15 [Op_q15.push 256, Op_q15.push 512, Op_q15.pop, Op_q15.push 768,
        Op_q15.push 1024, Op_q15.pop] (fifo_init_q15 blank_q15 7 3)).2 ∧
    ∀ n : Nat, StorageRel scaled 3
      (runOps ([Op.push 1, Op.push 2, Op.pop, Op.push 3, Op.push 4, Op.pop].take n)
        (fifo_init blank 100 3)).1
      (runOps_q15 ([Op_q15.push 256, Op_q15.push 512, Op_q15.pop, Op_q15.push 768,
        Op_q15.push 1024, Op_q15.pop].take n) (fifo_init_q15 blank_q15 7 3)).1 :=
  ⟨(q15_same_machine scaled blank blank_q15 100 7 3
      [Op.push 1, Op.push 2, Op.pop, Op.push 3, Op.push 4, Op.pop]
      [Op_q15.push 256, Op_q15.push 512, Op_q15.pop, Op_q15.push 768,
        Op_q15.push 1024, Op_q15.pop]
      ⟨rfl, rfl, rfl, rfl, trivial⟩).1,
    (q15_same_machine scaled blank blank_q15 100 7 3
      [Op.push 1, Op.push 2, Op.pop, Op.push 3, Op.push 4, Op.pop]
      [Op_q15.push 256, Op_q15.push 512, Op_q15.pop, Op_q15.push 768,
        Op_q15.push 1024, Op_q15.pop]
      ⟨rfl, rfl, rfl, rfl, trivial⟩).2 (by decide) (fun _ _ _ => rfl)⟩

end Fifobuf
